import Mathlib

/-
Verification of the Otto core orchestrator (src/otto/core.go) against its
natural-language specification.  The Go code is shallowly embedded: pure
functions model the path/context computations, and the stateful routines
(the graph walk, Compile, Dev, creds, Execute) are modelled as functions
over explicit state together with event traces; external collaborators
(plugin implementations, the UI, the filesystem) are modelled as oracles
supplied in environment records.
-/

namespace Otto

/-! ## Data model (src/otto/core.go and the appfile/app packages it uses) -/

/-- The active infrastructure configuration of an Appfile. -/
structure InfraConfig where
  flavor : String
deriving DecidableEq, Repr

/-- The `Application` section of an Appfile. -/
structure Application where
  name : String
  type : String
deriving DecidableEq, Repr

/-- The `Project` section of an Appfile. -/
structure Project where
  infrastructure : String
deriving DecidableEq, Repr

/-- An Appfile value carried by a graph vertex.  `id` models `File.ID()`,
`activeInfrastructure` models the `ActiveInfrastructure()` accessor
(`none` when the accessor returns nil). -/
structure AppfileFile where
  id : String
  application : Application
  project : Project
  activeInfrastructure : Option InfraConfig
deriving DecidableEq, Repr

/-- The registry key for app implementations. -/
structure Tuple where
  app : String
  infra : String
  infraFlavor : String
deriving DecidableEq, Repr

/-- Per-vertex app context (`app.Context`).  The opaque `Shared` services
are omitted: no claim concerns them. -/
structure AppContext where
  dir : String
  cacheDir : String
  tuple : Tuple
  appfile : AppfileFile
  application : Application
  action : String
  actionArgs : List String
  devDepFragments : List String
deriving DecidableEq, Repr

/-- The result returned by the `Compile` of an app implementation. -/
structure CompileResult where
  devDepFragmentPath : String
deriving DecidableEq, Repr

/-- A dev-dependency descriptor (`app.DevDep`). -/
structure DevDep where
  files : List String
deriving DecidableEq, Repr

/-- The fields of the Core orchestrator that the claims depend on. -/
structure Core where
  appfile : AppfileFile
  dataDir : String
  localDir : String
  compileDir : String
deriving DecidableEq, Repr

/-- `filepath.Join` on already-clean components. -/
def join (a b : String) : String := a ++ "/" ++ b

/-- A filesystem mutation performed by the core. -/
inductive FsOp where
  | mkdirAll (path : String)
deriving DecidableEq, Repr

/-! ## appContext (Core.appContext, core.go lines 469-516) -/

/-- The context value `Core.appContext` assembles on success. -/
def mkAppContext (c : Core) (f : AppfileFile) (cfg : InfraConfig) : AppContext :=
  { dir :=
      if f.id = c.appfile.id then join c.compileDir "app"
      else join c.compileDir ("dep-" ++ f.id)
  , cacheDir := join (join c.dataDir "cache") f.id
  , tuple := ⟨f.application.type, f.project.infrastructure, cfg.flavor⟩
  , appfile := f
  , application := f.application
  , action := ""
  , actionArgs := []
  , devDepFragments := [] }

/-- `Core.appContext`: returns the filesystem effects performed together
with the result.  `mkdirErr` is the oracle for `os.MkdirAll` (`none` =
success). -/
def appContextFx (c : Core) (mkdirErr : String → Option String)
    (f : AppfileFile) : List FsOp × Except String AppContext :=
  match f.activeInfrastructure with
  | none =>
      ([], .error ("infrastructure not found in appfile: "
        ++ f.project.infrastructure))
  | some cfg =>
      let cacheDir := join (join c.dataDir "cache") f.id
      match mkdirErr cacheDir with
      | some e =>
          ([FsOp.mkdirAll cacheDir],
            .error ("error making cache directory " ++ cacheDir ++ ": " ++ e))
      | none => ([FsOp.mkdirAll cacheDir], .ok (mkAppContext c f cfg))

/-- The result component of `Core.appContext`. -/
def appContextE (c : Core) (mkdirErr : String → Option String)
    (f : AppfileFile) : Except String AppContext :=
  (appContextFx c mkdirErr f).2

/-! ## String helper lemmas -/

theorem data_append (s t : String) : (s ++ t).data = s.data ++ t.data := by
  cases s; cases t; rfl

theorem string_ext {s t : String} (h : s.data = t.data) : s = t := by
  cases s; cases t; cases h; rfl

theorem str_append_cancel_left {a b c : String} (h : a ++ b = a ++ c) :
    b = c := by
  apply string_ext
  have h2 := congrArg String.data h
  rw [data_append, data_append] at h2
  exact List.append_cancel_left h2

theorem str_append_cancel_right {a b c : String} (h : a ++ c = b ++ c) :
    a = b := by
  apply string_ext
  have h2 := congrArg String.data h
  rw [data_append, data_append] at h2
  exact List.append_cancel_right h2

theorem join_cancel_left {d a b : String} (h : join d a = join d b) :
    a = b :=
  str_append_cancel_left h

theorem app_ne_dep (x : String) : "app" ≠ "dep-" ++ x := by
  intro h
  have h2 := congrArg String.length h
  rw [String.length_append] at h2
  have h3 : ("app" : String).length = 3 := rfl
  have h4 : ("dep-" : String).length = 4 := rfl
  omega

/-- Unfolding lemma: a successful `appContext` yields the canonical
context for some active infrastructure configuration. -/
theorem appContextE_ok {c : Core} {mk : String → Option String}
    {f : AppfileFile} {ctx : AppContext}
    (h : appContextE c mk f = .ok ctx) :
    ∃ cfg, f.activeInfrastructure = some cfg
      ∧ mk (join (join c.dataDir "cache") f.id) = none
      ∧ ctx = mkAppContext c f cfg := by
  unfold appContextE appContextFx at h
  cases hcfg : f.activeInfrastructure with
  | none => rw [hcfg] at h; exact absurd h (by simp)
  | some cfg =>
      rw [hcfg] at h
      simp only at h
      cases hmk : mk (join (join c.dataDir "cache") f.id) with
      | some e => rw [hmk] at h; exact absurd h (by simp)
      | none =>
          rw [hmk] at h
          simp only [Except.ok.injEq] at h
          exact ⟨cfg, rfl, rfl, h.symm⟩

/-- Claim C7: an Appfile with no active infrastructure makes `appContext`
fail with the infrastructure-not-configured error naming the project
infrastructure, and the routine performs no filesystem effect (in
particular the cache directory is not created). -/
theorem appContext_no_infra (c : Core) (mk : String → Option String)
    (f : AppfileFile) (h : f.activeInfrastructure = none) :
    appContextFx c mk f =
      ([], .error ("infrastructure not found in appfile: "
        ++ f.project.infrastructure)) := by
  unfold appContextFx
  rw [h]

def sampleNoInfraFile : AppfileFile :=
  { id := "X"
  , application := { name := "web", type := "go" }
  , project := { infrastructure := "aws" }
  , activeInfrastructure := none }

def sampleCore : Core :=
  { appfile :=
      { id := "R"
      , application := { name := "root", type := "go" }
      , project := { infrastructure := "aws" }
      , activeInfrastructure := some { flavor := "simple" } }
  , dataDir := "/data"
  , localDir := "/local"
  , compileDir := "/compile" }

theorem appContext_no_infra_witness :
    appContextFx sampleCore (fun _ => none) sampleNoInfraFile =
      ([], .error "infrastructure not found in appfile: aws") :=
  appContext_no_infra sampleCore (fun _ => none) sampleNoInfraFile rfl

/-- Claim C8: for every Appfile for which `appContext` succeeds, `Dir` is
`<compileDir>/app` for the root id and `<compileDir>/dep-<id>` otherwise,
`CacheDir` is `<dataDir>/cache/<id>`, and any two successful contexts for
Appfiles with distinct ids have distinct `Dir` values. -/
theorem appContext_dirs (c : Core) (mk mk2 : String → Option String)
    (f : AppfileFile) (ops : List FsOp) (ctx : AppContext)
    (h : appContextFx c mk f = (ops, .ok ctx)) :
    (ctx.dir = if f.id = c.appfile.id then join c.compileDir "app"
      else join c.compileDir ("dep-" ++ f.id))
    ∧ ctx.cacheDir = join (join c.dataDir "cache") f.id
    ∧ ∀ g ops2 ctx2, appContextFx c mk2 g = (ops2, .ok ctx2) →
        f.id ≠ g.id → ctx.dir ≠ ctx2.dir := by
  have hE : appContextE c mk f = .ok ctx := by
    unfold appContextE; rw [h]
  obtain ⟨cfg, _, _, hctx⟩ := appContextE_ok hE
  subst hctx
  refine ⟨rfl, rfl, ?_⟩
  intro g ops2 ctx2 h2 hne
  have hE2 : appContextE c mk2 g = .ok ctx2 := by
    unfold appContextE; rw [h2]
  obtain ⟨cfg2, _, _, hctx2⟩ := appContextE_ok hE2
  subst hctx2
  show (mkAppContext c f cfg).dir ≠ (mkAppContext c g cfg2).dir
  unfold mkAppContext
  simp only
  by_cases hf : f.id = c.appfile.id <;> by_cases hg : g.id = c.appfile.id
  · exact absurd (hf.trans hg.symm) hne
  · simp only [if_pos hf, if_neg hg]
    intro hd
    exact app_ne_dep g.id (join_cancel_left hd)
  · simp only [if_neg hf, if_pos hg]
    intro hd
    exact app_ne_dep f.id (join_cancel_left hd.symm)
  · simp only [if_neg hf, if_neg hg]
    intro hd
    have h3 : "dep-" ++ f.id = "dep-" ++ g.id := join_cancel_left hd
    exact hne (str_append_cancel_left h3)

def sampleDepFileA : AppfileFile :=
  { id := "D1"
  , application := { name := "libA", type := "ruby" }
  , project := { infrastructure := "aws" }
  , activeInfrastructure := some { flavor := "simple" } }

def sampleDepFileB : AppfileFile :=
  { id := "D2"
  , application := { name := "libB", type := "php" }
  , project := { infrastructure := "aws" }
  , activeInfrastructure := some { flavor := "simple" } }

theorem appContext_dirs_witness :
    ((mkAppContext sampleCore sampleDepFileA { flavor := "simple" }).dir =
        if sampleDepFileA.id = sampleCore.appfile.id
        then join sampleCore.compileDir "app"
        else join sampleCore.compileDir ("dep-" ++ sampleDepFileA.id))
    ∧ (mkAppContext sampleCore sampleDepFileA { flavor := "simple" }).cacheDir
        = join (join sampleCore.dataDir "cache") sampleDepFileA.id
    ∧ (mkAppContext sampleCore sampleDepFileA { flavor := "simple" }).dir
        ≠ (mkAppContext sampleCore sampleDepFileB { flavor := "simple" }).dir := by
  have h := appContext_dirs sampleCore (fun _ => none) (fun _ => none)
    sampleDepFileA [FsOp.mkdirAll "/data/cache/D1"]
    (mkAppContext sampleCore sampleDepFileA { flavor := "simple" }) rfl
  refine ⟨h.1, h.2.1, ?_⟩
  exact h.2.2 sampleDepFileB [FsOp.mkdirAll "/data/cache/D2"]
    (mkAppContext sampleCore sampleDepFileB { flavor := "simple" })
    rfl (by decide)

/-! ## The graph walk (Core.walk, core.go lines 151-195)

The external graph walker is modelled as a sequence of vertex visits; the
fail-fast protocol of the wrapper callback (atomic stop flag, per-vertex
context construction, app resolution, user callback) is embedded
faithfully.  Each visit produces an `Invocation` record for the proofs. -/

/-- A vertex of the compiled Appfile graph. -/
structure Vertex where
  name : String
  file : AppfileFile
deriving DecidableEq, Repr

/-- Oracles for the collaborator calls the walk performs.  `appErr` covers
`Core.app` (unknown-tuple lookup failure or factory failure); `none`
means resolution succeeded. -/
structure WalkEnv where
  core : Core
  mkdirErr : String → Option String
  appErr : Tuple → Option String

/-- Bookkeeping for one wrapper-callback invocation of the walk. -/
structure Invocation where
  vertexName : String
  stopObserved : Bool
  builtContext : Bool
  resolvedApp : Bool
  calledCallback : Bool
  result : Option String
deriving DecidableEq, Repr

/-- The record produced when the stop flag is observed set. -/
def skippedInv (n : String) : Invocation := ⟨n, true, false, false, false, none⟩

/-- Output of a single wrapper-callback invocation. -/
structure StepOut (σ : Type) where
  state : σ
  stop : Bool
  inv : Invocation

/-- Output of a whole walk. -/
structure WalkOut (σ : Type) where
  state : σ
  stop : Bool
  trace : List Invocation

/-- One visit of the wrapper callback Core.walk passes to `Graph.Walk`:
observe the stop flag, build the vertex context, resolve its app, call
the user callback `cb`, and set the stop flag on any error.  The user
callback threads the state `σ` that the Go closures mutate. -/
def stepCore {σ : Type} (we : WalkEnv)
    (cb : Vertex → AppContext → Bool → σ → σ × Option String)
    (root : Vertex) (s : σ) (stop : Bool) (v : Vertex) : StepOut σ :=
  if stop then ⟨s, true, skippedInv v.name⟩
  else
    match appContextE we.core we.mkdirErr v.file with
    | .error e =>
        ⟨s, true, ⟨v.name, false, false, false, false,
          some ("Error loading Appfile for " ++ v.name ++ ": " ++ e)⟩⟩
    | .ok ctx =>
        match we.appErr ctx.tuple with
        | some e =>
            ⟨s, true, ⟨v.name, false, true, false, false,
              some ("Error loading App implementation for " ++ v.name
                ++ ": " ++ e)⟩⟩
        | none =>
            match cb v ctx (decide (v = root)) s with
            | (s2, some e) => ⟨s2, true, ⟨v.name, false, true, true, true, some e⟩⟩
            | (s2, none) => ⟨s2, false, ⟨v.name, false, true, true, true, none⟩⟩

/-- The traversal of the vertex sequence by the walk. -/
def walkFold {σ : Type} (we : WalkEnv)
    (cb : Vertex → AppContext → Bool → σ → σ × Option String)
    (root : Vertex) : List Vertex → σ → Bool → WalkOut σ
  | [], s, stop => ⟨s, stop, []⟩
  | v :: vs, s, stop =>
      let o := stepCore we cb root s stop v
      let w := walkFold we cb root vs o.state o.stop
      ⟨w.state, w.stop, o.inv :: w.trace⟩

/-- The error value `Graph.Walk` hands back: the error of the (unique)
failing invocation, if any. -/
def walkErr (tr : List Invocation) : Option String :=
  (tr.filterMap (fun i => i.result)).head?

/-- `Core.walk`: resolve the graph root and traverse.  `rootRes` models
`Graph.Root()`. -/
def walk {σ : Type} (we : WalkEnv)
    (cb : Vertex → AppContext → Bool → σ → σ × Option String)
    (rootRes : Except String Vertex) (vs : List Vertex) (s0 : σ) :
    σ × List Invocation × Option String :=
  match rootRes with
  | .error e => (s0, [], some ("Error loading app: " ++ e))
  | .ok root =>
      let w := walkFold we cb root vs s0 false
      (w.state, w.trace, walkErr w.trace)

theorem stepCore_stopped {σ : Type} (we : WalkEnv) (cb) (root) (s : σ) (v) :
    stepCore we cb root s true v = ⟨s, true, skippedInv v.name⟩ := rfl

/-- Case analysis of a visit made with the stop flag clear: either it
errors and sets the flag, or it succeeds and leaves the flag clear. -/
theorem stepCore_live_spec {σ : Type} (we : WalkEnv) (cb) (root) (s : σ) (v) :
    ((stepCore we cb root s false v).stop = true
      ∧ ((stepCore we cb root s false v).inv.result).isSome = true)
    ∨ ((stepCore we cb root s false v).stop = false
      ∧ (stepCore we cb root s false v).inv.result = none) := by
  unfold stepCore
  cases h : appContextE we.core we.mkdirErr v.file with
  | error e => left; simp [h]
  | ok ctx =>
      cases h2 : we.appErr ctx.tuple with
      | some e => left; simp [h, h2]
      | none =>
          rcases h3 : cb v ctx (decide (v = root)) s with ⟨s2, r⟩
          cases r with
          | some e => left; simp [h, h2, h3]
          | none => right; simp [h, h2, h3]

/-- With the stop flag set, the rest of the walk drains: state untouched,
every remaining invocation is a skip. -/
theorem walkFold_stopped {σ : Type} (we : WalkEnv) (cb) (root) :
    ∀ (vs : List Vertex) (s : σ),
    walkFold we cb root vs s true =
      ⟨s, true, vs.map (fun v => skippedInv v.name)⟩ := by
  intro vs
  induction vs with
  | nil => intro s; rfl
  | cons v vs ih => intro s; simp [walkFold, stepCore_stopped, ih]

/-- Shape of every walk started with the flag clear: either it finishes
clean (flag still clear, every invocation error-free), or exactly one
invocation errored, the flag is set, and everything after the error is a
drained skip. -/
theorem walkFold_master {σ : Type} (we : WalkEnv) (cb) (root : Vertex) :
    ∀ (vs : List Vertex) (s : σ),
    ((walkFold we cb root vs s false).stop = false
      ∧ ∀ r ∈ (walkFold we cb root vs s false).trace, r.result = none)
    ∨ ((walkFold we cb root vs s false).stop = true
      ∧ ∃ xs e ys, (walkFold we cb root vs s false).trace = xs ++ e :: ys
        ∧ (∀ r ∈ xs, r.result = none)
        ∧ e.result.isSome = true
        ∧ ∀ r ∈ ys, r = skippedInv r.vertexName) := by
  intro vs
  induction vs with
  | nil => intro s; left; exact ⟨rfl, by simp [walkFold]⟩
  | cons v vs ih =>
      intro s
      rcases stepCore_live_spec we cb root s v with ⟨h1, h2⟩ | ⟨h1, h2⟩
      · right
        constructor
        · simp [walkFold, h1, walkFold_stopped]
        refine ⟨[], (stepCore we cb root s false v).inv,
          vs.map (fun u => skippedInv u.name), ?_, by simp, h2, ?_⟩
        · simp [walkFold, h1, walkFold_stopped]
        intro r hr
        obtain ⟨u, _, hu⟩ := List.mem_map.mp hr
        rw [← hu]
        rfl
      · rcases ih (stepCore we cb root s false v).state with ⟨g1, g2⟩ | ⟨g1, g2⟩
        · left
          simp only [walkFold, h1]
          refine ⟨g1, ?_⟩
          intro r hr
          rcases List.mem_cons.mp hr with hr | hr
          · rw [hr]; exact h2
          · exact g2 r hr
        · right
          obtain ⟨xs, e, ys, hsplit, hxs, he, hys⟩ := g2
          simp only [walkFold, h1]
          refine ⟨g1, (stepCore we cb root s false v).inv :: xs, e, ys,
            by rw [hsplit]; rfl, ?_, he, hys⟩
          intro r hr
          rcases List.mem_cons.mp hr with hr | hr
          · rw [hr]; exact h2
          · exact hxs r hr

theorem filterMap_of_none {α β : Type} (f : α → Option β) :
    ∀ l : List α, (∀ r ∈ l, f r = none) → l.filterMap f = [] := by
  intro l
  induction l with
  | nil => intro _; rfl
  | cons a l ih =>
      intro h
      rw [List.filterMap_cons, h a (by simp)]
      exact ih (fun r hr => h r (by simp [hr]))

/-- A list with a single marked element (all others unmarked) splits
uniquely around that element. -/
theorem one_some_split :
    ∀ (xs : List Invocation) (e : Invocation) (ys xs2 : List Invocation)
      (e2 : Invocation) (ys2 : List Invocation),
    xs ++ e :: ys = xs2 ++ e2 :: ys2 →
    e.result.isSome = true → e2.result.isSome = true →
    (∀ r ∈ xs2, r.result = none) → (∀ r ∈ ys2, r.result = none) →
    xs = xs2 ∧ e = e2 ∧ ys = ys2 := by
  intro xs
  induction xs with
  | nil =>
      intro e ys xs2 e2 ys2 h he he2 hx2 hy2
      cases xs2 with
      | nil =>
          simp only [List.nil_append, List.cons.injEq] at h
          exact ⟨rfl, h.1, h.2⟩
      | cons a rest =>
          simp only [List.nil_append, List.cons_append, List.cons.injEq] at h
          have ha := hx2 a (by simp)
          rw [h.1, ha] at he
          simp at he
  | cons a xs ih =>
      intro e ys xs2 e2 ys2 h he he2 hx2 hy2
      cases xs2 with
      | nil =>
          simp only [List.cons_append, List.nil_append, List.cons.injEq] at h
          have : e ∈ ys2 := by rw [← h.2]; simp
          have := hy2 e this
          rw [this] at he
          simp at he
      | cons a2 rest =>
          simp only [List.cons_append, List.cons.injEq] at h
          have hrest := ih e ys rest e2 ys2 h.2 he he2
            (fun r hr => hx2 r (by simp [hr])) hy2
          exact ⟨by rw [h.1, hrest.1], hrest.2.1, hrest.2.2⟩

/-- Claim C4: whenever some wrapper-callback invocation of a walk returns
an error, the stop flag ends set, every invocation after the erroring one
observes the flag and returns nil without building a context, resolving
an app, or calling the user callback, and the walk returns exactly that
one error (at most one error overall). -/
theorem walk_fail_fast {σ : Type} (we : WalkEnv)
    (cb : Vertex → AppContext → Bool → σ → σ × Option String)
    (root : Vertex) (vs : List Vertex) (s0 : σ)
    (xs : List Invocation) (e : Invocation) (ys : List Invocation)
    (h : (walkFold we cb root vs s0 false).trace = xs ++ e :: ys)
    (he : e.result.isSome = true) :
    (walkFold we cb root vs s0 false).stop = true
    ∧ (∀ r ∈ ys, r.stopObserved = true ∧ r.builtContext = false
        ∧ r.resolvedApp = false ∧ r.calledCallback = false ∧ r.result = none)
    ∧ ((walkFold we cb root vs s0 false).trace.filterMap
        (fun i => i.result)).length ≤ 1
    ∧ walkErr (walkFold we cb root vs s0 false).trace = e.result := by
  rcases walkFold_master we cb root vs s0 with ⟨_, g2⟩ | ⟨g1, g2⟩
  · exfalso
    have : e ∈ (walkFold we cb root vs s0 false).trace := by rw [h]; simp
    have := g2 e this
    rw [this] at he
    simp at he
  · obtain ⟨xs2, e2, ys2, hsplit, hxs2, he2, hys2⟩ := g2
    have hy2none : ∀ r ∈ ys2, r.result = none := by
      intro r hr
      rw [hys2 r hr]
      rfl
    have huniq := one_some_split xs e ys xs2 e2 ys2
      (by rw [← h, ← hsplit]) he he2 hxs2 hy2none
    obtain ⟨hx, heq, hy⟩ := huniq
    obtain ⟨val, hval⟩ := Option.isSome_iff_exists.mp he
    have hfm : (walkFold we cb root vs s0 false).trace.filterMap
        (fun i => i.result) = [val] := by
      rw [h, hx, heq, hy]
      rw [List.filterMap_append, List.filterMap_cons]
      rw [filterMap_of_none _ xs2 hxs2, filterMap_of_none _ ys2 hy2none]
      rw [← heq, hval]
      rfl
    refine ⟨g1, ?_, ?_, ?_⟩
    · intro r hr
      have := hys2 r (hy ▸ hr)
      rw [this]
      exact ⟨rfl, rfl, rfl, rfl, rfl⟩
    · rw [hfm]
      simp
    · unfold walkErr
      rw [hfm, hval]
      rfl

def wfVertexR : Vertex := ⟨"R", sampleCore.appfile⟩

def wfVertexD1 : Vertex := ⟨"D1", sampleDepFileA⟩

def wfVertexD2 : Vertex := ⟨"D2", sampleDepFileB⟩

def wfWalkEnv : WalkEnv := ⟨sampleCore, fun _ => none, fun _ => none⟩

def wfCb : Vertex → AppContext → Bool → Unit → Unit × Option String :=
  fun v _ _ s => (s, if v.name = "D1" then some "boom" else none)

theorem walk_fail_fast_witness :
    (walkFold wfWalkEnv wfCb wfVertexR [wfVertexD2, wfVertexD1, wfVertexR]
      () false).stop = true
    ∧ (∀ r ∈ [skippedInv "R"], r.stopObserved = true ∧ r.builtContext = false
        ∧ r.resolvedApp = false ∧ r.calledCallback = false ∧ r.result = none)
    ∧ ((walkFold wfWalkEnv wfCb wfVertexR [wfVertexD2, wfVertexD1, wfVertexR]
        () false).trace.filterMap (fun i => i.result)).length ≤ 1
    ∧ walkErr (walkFold wfWalkEnv wfCb wfVertexR
        [wfVertexD2, wfVertexD1, wfVertexR] () false).trace =
      (⟨"D1", false, true, true, true, some "boom"⟩ : Invocation).result :=
  walk_fail_fast wfWalkEnv wfCb wfVertexR [wfVertexD2, wfVertexD1, wfVertexR]
    () [⟨"D2", false, true, true, true, none⟩]
    ⟨"D1", false, true, true, true, some "boom"⟩ [skippedInv "R"]
    (by decide) (by decide)

/-! ## Compile (Core.Compile, core.go lines 86-149) -/

/-- Oracles for the collaborator calls `Core.Compile` performs.
`infraResolve` models `Core.infra` (resolution + context build),
`removeAllErr` models `os.RemoveAll(compileDir)`, `infraCompileErr`
models `infra.Compile`, and `compileErr`/`compileRes` model each app
implementation `Compile` call keyed by appfile id. -/
structure CompileEnv where
  env : WalkEnv
  infraResolve : Option String
  removeAllErr : Option String
  infraCompileErr : Option String
  compileErr : String → Option String
  compileRes : String → CompileResult

/-- What one Compile callback invocation saw: the appfile id of the vertex,
whether it was the root, and `ctx.DevDepFragments` at the moment
`app.Compile(ctx)` was called. -/
structure CompileCbRecord where
  appfileId : String
  isRoot : Bool
  fragments : List String
deriving DecidableEq, Repr

/-- The closure state of the Compile callback: the shared `results` slice
plus the callback bookkeeping. -/
structure CompileState where
  results : List CompileResult
  cbTrace : List CompileCbRecord
deriving DecidableEq, Repr

/-- The root-callback loop over `results`: collect every non-empty
`DevDepFragmentPath`, in order. -/
def collectFragments : List CompileResult → List String
  | [] => []
  | r :: rest =>
      if r.devDepFragmentPath ≠ "" then
        r.devDepFragmentPath :: collectFragments rest
      else collectFragments rest

/-- The callback Compile passes to the walk (core.go lines 109-146). -/
def compileCallback (ce : CompileEnv) (v : Vertex) (ctx : AppContext)
    (isRoot : Bool) (s : CompileState) : CompileState × Option String :=
  let frags := if isRoot then collectFragments s.results
    else ctx.devDepFragments
  let s1 : CompileState :=
    { s with cbTrace := s.cbTrace ++ [⟨v.file.id, isRoot, frags⟩] }
  match ce.compileErr v.file.id with
  | some e => (s1, some e)
  | none => ({ s1 with results := s1.results ++ [ce.compileRes v.file.id] }, none)

/-- What a run of `Core.Compile` produced: the value Compile returned,
the error the walk returned (which the source drops), and the final
callback state. -/
structure CompileOutcome where
  result : Option String
  walkResult : Option String
  state : CompileState
deriving DecidableEq, Repr

/-- `Core.Compile`.  Note the last line: the walk error is assigned to
`err` in the source but the function returns `nil` unconditionally, so
the model returns `none` while recording the walk error separately. -/
def Compile (ce : CompileEnv) (rootRes : Except String Vertex)
    (vs : List Vertex) : CompileOutcome :=
  match ce.infraResolve with
  | some e => ⟨some e, none, ⟨[], []⟩⟩
  | none =>
    match ce.removeAllErr with
    | some e => ⟨some e, none, ⟨[], []⟩⟩
    | none =>
      match ce.infraCompileErr with
      | some e => ⟨some e, none, ⟨[], []⟩⟩
      | none =>
        match walk ce.env (compileCallback ce) rootRes vs ⟨[], []⟩ with
        | (st, _, werr) => ⟨none, werr, st⟩

def c1Env : CompileEnv :=
  { env := wfWalkEnv
  , infraResolve := none
  , removeAllErr := none
  , infraCompileErr := none
  , compileErr := fun _ => some "boom"
  , compileRes := fun _ => ⟨""⟩ }

/-- Claim C1 (code bug): a run of `Core.Compile` whose walk fails — here
the root app `Compile` returns the error "boom", which the walk
propagates — still returns success to the caller, because the source
returns `nil` unconditionally after the walk.  The claim (and the spec,
which mandates propagation) says the walk error must be returned. -/
theorem compile_swallows_walker_error :
    (Compile c1Env (.ok wfVertexR) [wfVertexR]).result = none
    ∧ (Compile c1Env (.ok wfVertexR) [wfVertexR]).walkResult = some "boom" := by
  constructor <;> rfl

/-- Decidable test that context build and app resolution for a vertex both
succeed. -/
def stepOkB (we : WalkEnv) (v : Vertex) : Bool :=
  match appContextE we.core we.mkdirErr v.file with
  | .ok ctx => (we.appErr ctx.tuple).isNone
  | .error _ => false

theorem stepOkB_spec {we : WalkEnv} {v : Vertex} (h : stepOkB we v = true) :
    ∃ ctx, appContextE we.core we.mkdirErr v.file = .ok ctx
      ∧ we.appErr ctx.tuple = none := by
  unfold stepOkB at h
  cases hc : appContextE we.core we.mkdirErr v.file with
  | error e => simp [hc] at h
  | ok ctx =>
      simp [hc] at h
      exact ⟨ctx, rfl, Option.isNone_iff_eq_none.mp (by simp [h])⟩

/-- The successful-invocation record. -/
def okInv (n : String) : Invocation := ⟨n, false, true, true, true, none⟩

/-- Splitting a walk over an append of vertex sequences. -/
theorem walkFold_append {σ : Type} (we : WalkEnv) (cb) (root : Vertex) :
    ∀ (l1 l2 : List Vertex) (s : σ) (stop : Bool),
    walkFold we cb root (l1 ++ l2) s stop =
      ⟨(walkFold we cb root l2 (walkFold we cb root l1 s stop).state
          (walkFold we cb root l1 s stop).stop).state,
       (walkFold we cb root l2 (walkFold we cb root l1 s stop).state
          (walkFold we cb root l1 s stop).stop).stop,
       (walkFold we cb root l1 s stop).trace
         ++ (walkFold we cb root l2 (walkFold we cb root l1 s stop).state
              (walkFold we cb root l1 s stop).stop).trace⟩ := by
  intro l1
  induction l1 with
  | nil => intro l2 s stop; simp [walkFold]
  | cons v l1 ih => intro l2 s stop; simp [walkFold, ih]

/-- One successful dependency step of the Compile walk. -/
theorem compileStep_dep (ce : CompileEnv) (root v : Vertex)
    (s : CompileState)
    (hnr : ¬(v = root)) (hok : stepOkB ce.env v = true)
    (herr : ce.compileErr v.file.id = none) :
    stepCore ce.env (compileCallback ce) root s false v =
      ⟨⟨s.results ++ [ce.compileRes v.file.id],
        s.cbTrace ++ [⟨v.file.id, false, []⟩]⟩, false, okInv v.name⟩ := by
  obtain ⟨ctx, hctx, happ⟩ := stepOkB_spec hok
  obtain ⟨cfg, _, _, hctxeq⟩ := appContextE_ok hctx
  subst hctxeq
  simp only [mkAppContext] at happ
  have hdec : decide (v = root) = false := decide_eq_false hnr
  unfold stepCore compileCallback
  simp [hctx, happ, hdec, herr, mkAppContext, okInv]

/-- The dependency prefix of a Compile walk in which every dependency
compiles successfully: each callback sees empty `DevDepFragments`, and
the results accumulate in visit order. -/
theorem compile_walk_deps (ce : CompileEnv) (root : Vertex) :
    ∀ (deps : List Vertex) (s : CompileState),
    (∀ v ∈ deps, ¬(v = root)) →
    (∀ v ∈ deps, stepOkB ce.env v = true) →
    (∀ v ∈ deps, ce.compileErr v.file.id = none) →
    walkFold ce.env (compileCallback ce) root deps s false =
      ⟨⟨s.results ++ deps.map (fun v => ce.compileRes v.file.id),
        s.cbTrace ++ deps.map (fun v => ⟨v.file.id, false, []⟩)⟩,
       false,
       deps.map (fun v => okInv v.name)⟩ := by
  intro deps
  induction deps with
  | nil => intro s _ _ _; simp [walkFold]
  | cons v deps ih =>
      intro s hnr hok herr
      have hstep := compileStep_dep ce root v s (hnr v (by simp))
        (hok v (by simp)) (herr v (by simp))
      have hrest := ih ⟨s.results ++ [ce.compileRes v.file.id],
          s.cbTrace ++ [⟨v.file.id, false, []⟩]⟩
        (fun u hu => hnr u (by simp [hu]))
        (fun u hu => hok u (by simp [hu]))
        (fun u hu => herr u (by simp [hu]))
      simp only [walkFold, hstep, hrest]
      simp

/-- The root step of a Compile walk: the callback snapshots the fragments
of the results accumulated so far into `ctx.DevDepFragments`. -/
theorem compileStep_root (ce : CompileEnv) (root : Vertex)
    (s : CompileState) (hok : stepOkB ce.env root = true) :
    ((walkFold ce.env (compileCallback ce) root [root] s false).state.cbTrace =
      s.cbTrace ++ [⟨root.file.id, true, collectFragments s.results⟩]) := by
  obtain ⟨ctx, hctx, happ⟩ := stepOkB_spec hok
  have hdec : decide (root = root) = true := by simp
  unfold walkFold stepCore compileCallback
  cases hce : ce.compileErr root.file.id with
  | some e => simp [hctx, happ, hdec, hce, walkFold]
  | none => simp [hctx, happ, hdec, hce, walkFold]

/-- Claim C3: in a Compile walk with the root visited last, when the
callback fires for the root, `ctx.DevDepFragments` is exactly the list
of non-empty `DevDepFragmentPath` values of the dependency results
appended so far (all dependencies), and `DevDepFragments` is empty for
every non-root callback. -/
theorem compile_root_sees_dep_fragments (ce : CompileEnv) (root : Vertex)
    (deps : List Vertex)
    (hnr : ∀ v ∈ deps, ¬(v = root))
    (hok : ∀ v ∈ deps, stepOkB ce.env v = true)
    (herr : ∀ v ∈ deps, ce.compileErr v.file.id = none)
    (hrok : stepOkB ce.env root = true)
    (h5 : ce.infraResolve = none) (h6 : ce.removeAllErr = none)
    (h7 : ce.infraCompileErr = none) :
    (Compile ce (.ok root) (deps ++ [root])).state.cbTrace =
      deps.map (fun v => ⟨v.file.id, false, []⟩)
        ++ [⟨root.file.id, true,
             collectFragments (deps.map (fun v => ce.compileRes v.file.id))⟩]
    ∧ ∀ q ∈ (Compile ce (.ok root) (deps ++ [root])).state.cbTrace,
        q.isRoot = false → q.fragments = [] := by
  have hdeps := compile_walk_deps ce root deps ⟨[], []⟩ hnr hok herr
  have htrace : (Compile ce (.ok root) (deps ++ [root])).state.cbTrace =
      deps.map (fun v => ⟨v.file.id, false, []⟩)
        ++ [⟨root.file.id, true,
             collectFragments (deps.map (fun v => ce.compileRes v.file.id))⟩] := by
    simp only [Compile, h5, h6, h7, walk]
    rw [walkFold_append]
    simp only [hdeps]
    rw [compileStep_root ce root _ hrok]
    simp
  refine ⟨htrace, ?_⟩
  intro q hq hroot
  rw [htrace] at hq
  rcases List.mem_append.mp hq with hq | hq
  · obtain ⟨u, _, hu⟩ := List.mem_map.mp hq
    rw [← hu]
  · simp only [List.mem_singleton] at hq
    rw [hq] at hroot
    simp at hroot

def c3Env : CompileEnv :=
  { env := wfWalkEnv
  , infraResolve := none
  , removeAllErr := none
  , infraCompileErr := none
  , compileErr := fun _ => none
  , compileRes := fun i =>
      if i = "D1" then ⟨"/compile/dep-D1/frag.sh"⟩ else ⟨""⟩ }

theorem compile_root_sees_dep_fragments_witness :
    (Compile c3Env (.ok wfVertexR)
        ([wfVertexD1, wfVertexD2] ++ [wfVertexR])).state.cbTrace =
      [wfVertexD1, wfVertexD2].map (fun v => ⟨v.file.id, false, []⟩)
        ++ [⟨wfVertexR.file.id, true,
             collectFragments ([wfVertexD1, wfVertexD2].map
               (fun v => c3Env.compileRes v.file.id))⟩]
    ∧ ∀ q ∈ (Compile c3Env (.ok wfVertexR)
        ([wfVertexD1, wfVertexD2] ++ [wfVertexR])).state.cbTrace,
        q.isRoot = false → q.fragments = [] :=
  compile_root_sees_dep_fragments c3Env wfVertexR [wfVertexD1, wfVertexD2]
    (by decide) (by decide) (by decide) (by decide) rfl rfl rfl

/-! ## Dev (Core.Dev, core.go lines 339-416) -/

/-- Oracles for the collaborator calls `Core.Dev` performs, keyed by
appfile id: the app `DevDep` operation, the descriptor `RelFiles`, the
`WriteDevDep` serialization, and the root app `Dev`. -/
structure DevEnv where
  env : WalkEnv
  devDepErr : String → Option String
  devDepRes : String → DevDep
  relFilesErr : String → Option String
  writeErr : String → Option String
  rootDevErr : Option String

/-- Observable actions of a Dev run. -/
inductive DevEvent where
  | cacheHitHeader (name : String)
  | devDepCall (id : String)
  | relFilesCall (id : String)
  | writeDevDep (path : String)
  | rootDevCall
deriving DecidableEq, Repr

/-- The state a Dev run threads: the set of existing `dev-dep.json` cache
files (paths), and the event log.  `ReadDevDep` succeeds exactly on the
paths in `fs`; `WriteDevDep` adds a path. -/
structure DevState where
  fs : List String
  events : List DevEvent
deriving DecidableEq, Repr

/-- The per-vertex cache file path `<dataDir>/cache/<id>/dev-dep.json`. -/
def cachePathOf (c : Core) (f : AppfileFile) : String :=
  join (join (join c.dataDir "cache") f.id) "dev-dep.json"

/-- The callback Dev passes to the walk (core.go lines 359-408). -/
def devCallback (de : DevEnv) (v : Vertex) (ctx : AppContext)
    (isRoot : Bool) (s : DevState) : DevState × Option String :=
  if isRoot then (s, none)
  else
    let cachePath := join ctx.cacheDir "dev-dep.json"
    if cachePath ∈ s.fs then
      ({ s with events :=
          s.events ++ [.cacheHitHeader ctx.appfile.application.name] }, none)
    else
      let s1 := { s with events := s.events ++ [.devDepCall v.file.id] }
      match de.devDepErr v.file.id with
      | some e =>
          (s1, some ("Error building dependency for dev "
            ++ ctx.appfile.application.name ++ ": " ++ e))
      | none =>
          let dep := de.devDepRes v.file.id
          if 0 < dep.files.length then
            let s2 := { s1 with events := s1.events ++ [.relFilesCall v.file.id] }
            match de.relFilesErr v.file.id with
            | some e =>
                (s2, some ("Error caching dependency for dev "
                  ++ ctx.appfile.application.name ++ ": " ++ e))
            | none =>
                let s3 := { s2 with events := s2.events ++ [.writeDevDep cachePath] }
                match de.writeErr cachePath with
                | some e =>
                    (s3, some ("Error caching dependency for dev "
                      ++ ctx.appfile.application.name ++ ": " ++ e))
                | none => ({ s3 with fs := s3.fs ++ [cachePath] }, none)
          else (s1, none)

/-- `Core.Dev`: resolve the root vertex, its context and app, walk the
dependencies, then invoke the `Dev` of the root app. -/
def Dev (de : DevEnv) (rootRes : Except String Vertex) (vs : List Vertex)
    (fs0 : List String) : DevState × Option String :=
  match rootRes with
  | .error e => (⟨fs0, []⟩, some e)
  | .ok root =>
      match appContextE de.env.core de.env.mkdirErr root.file with
      | .error e => (⟨fs0, []⟩, some ("Error loading App: " ++ e))
      | .ok rootCtx =>
          match de.env.appErr rootCtx.tuple with
          | some e => (⟨fs0, []⟩, some ("Error loading App: " ++ e))
          | none =>
              match walk de.env (devCallback de) (.ok root) vs ⟨fs0, []⟩ with
              | (st, _, some e) => (st, some e)
              | (st, _, none) =>
                  ({ st with events := st.events ++ [.rootDevCall] },
                    de.rootDevErr)

theorem cachePathOf_inj {c : Core} {f g : AppfileFile}
    (h : cachePathOf c f = cachePathOf c g) : f.id = g.id := by
  unfold cachePathOf join at h
  have h1 := str_append_cancel_right h
  have h2 := str_append_cancel_right h1
  exact str_append_cancel_left h2

/-- Reduction of a live walk visit once context build and app resolution
are known to succeed. -/
theorem stepCore_run {σ : Type} (we : WalkEnv)
    (cb : Vertex → AppContext → Bool → σ → σ × Option String)
    (root : Vertex) (s : σ) (v : Vertex) (ctx : AppContext)
    (hctx : appContextE we.core we.mkdirErr v.file = .ok ctx)
    (happ : we.appErr ctx.tuple = none) :
    stepCore we cb root s false v =
      match cb v ctx (decide (v = root)) s with
      | (s2, some e) => ⟨s2, true, ⟨v.name, false, true, true, true, some e⟩⟩
      | (s2, none) => ⟨s2, false, ⟨v.name, false, true, true, true, none⟩⟩ := by
  unfold stepCore
  simp [hctx, happ]

/-- Characterization of an error-free non-root Dev callback. -/
theorem devCallback_none_spec (de : DevEnv) (v : Vertex) (ctx : AppContext)
    (s s2 : DevState) (h : devCallback de v ctx false s = (s2, none)) :
    (join ctx.cacheDir "dev-dep.json" ∈ s.fs
      ∧ s2 = { s with events := s.events
          ++ [.cacheHitHeader ctx.appfile.application.name] })
    ∨ (join ctx.cacheDir "dev-dep.json" ∉ s.fs
      ∧ (de.devDepRes v.file.id).files = []
      ∧ s2 = { s with events := s.events ++ [.devDepCall v.file.id] })
    ∨ (join ctx.cacheDir "dev-dep.json" ∉ s.fs
      ∧ (de.devDepRes v.file.id).files ≠ []
      ∧ s2 = { fs := s.fs ++ [join ctx.cacheDir "dev-dep.json"]
             , events := s.events ++ [.devDepCall v.file.id,
                 .relFilesCall v.file.id,
                 .writeDevDep (join ctx.cacheDir "dev-dep.json")] }) := by
  unfold devCallback at h
  by_cases hmem : join ctx.cacheDir "dev-dep.json" ∈ s.fs
  · left
    simp [hmem] at h
    exact ⟨hmem, h.symm⟩
  · rcases hdd : de.devDepErr v.file.id with _ | e
    · by_cases hlen : 0 < (de.devDepRes v.file.id).files.length
      · rcases hrf : de.relFilesErr v.file.id with _ | e2
        · rcases hw : de.writeErr (join ctx.cacheDir "dev-dep.json")
            with _ | e3
          · right; right
            simp [hmem, hdd, hlen, hrf, hw] at h
            refine ⟨hmem, ?_, ?_⟩
            · intro hnil
              rw [hnil] at hlen
              simp at hlen
            · rw [← h]
          · simp [hmem, hdd, hlen, hrf, hw] at h
        · simp [hmem, hdd, hlen, hrf] at h
      · right; left
        have hnil : (de.devDepRes v.file.id).files = [] := by
          rcases hf : (de.devDepRes v.file.id).files with _ | ⟨a, l⟩
          · rfl
          · rw [hf] at hlen; simp at hlen
        simp [hmem, hdd, hlen] at h
        exact ⟨hmem, hnil, h.symm⟩
    · simp [hmem, hdd] at h

/-- Exhaustive characterization of an error-free Dev-walk visit: it is a
root skip, a cache hit, a no-files `DevDep` (nothing cached), or a
full `DevDep`/`RelFiles`/`WriteDevDep` round that caches the result. -/
theorem devStep_none (de : DevEnv) (root v : Vertex) (s : DevState)
    (h : (stepCore de.env (devCallback de) root s false v).inv.result = none) :
    (stepCore de.env (devCallback de) root s false v).stop = false
    ∧ ((v = root ∧ (stepCore de.env (devCallback de) root s false v).state = s)
      ∨ (¬(v = root) ∧ cachePathOf de.env.core v.file ∈ s.fs
        ∧ (stepCore de.env (devCallback de) root s false v).state =
          { s with events := s.events
              ++ [.cacheHitHeader v.file.application.name] })
      ∨ (¬(v = root) ∧ cachePathOf de.env.core v.file ∉ s.fs
        ∧ (de.devDepRes v.file.id).files = []
        ∧ (stepCore de.env (devCallback de) root s false v).state =
          { s with events := s.events ++ [.devDepCall v.file.id] })
      ∨ (¬(v = root) ∧ cachePathOf de.env.core v.file ∉ s.fs
        ∧ (de.devDepRes v.file.id).files ≠ []
        ∧ (stepCore de.env (devCallback de) root s false v).state =
          { fs := s.fs ++ [cachePathOf de.env.core v.file]
          , events := s.events ++ [.devDepCall v.file.id,
              .relFilesCall v.file.id,
              .writeDevDep (cachePathOf de.env.core v.file)] })) := by
  rcases hctx : appContextE de.env.core de.env.mkdirErr v.file with e | ctx
  · unfold stepCore at h
    simp [hctx] at h
  · rcases happ : de.env.appErr ctx.tuple with _ | e2
    · rw [stepCore_run de.env (devCallback de) root s v ctx hctx happ] at h ⊢
      obtain ⟨cfg, _, _, hctxeq⟩ := appContextE_ok hctx
      have hcp : join ctx.cacheDir "dev-dep.json" =
          cachePathOf de.env.core v.file := by rw [hctxeq]; rfl
      have hname : ctx.appfile.application.name = v.file.application.name := by
        rw [hctxeq]
        rfl
      by_cases hvr : v = root
      · have hdec : decide (v = root) = true := by simp [hvr]
        rw [hdec]
        have hroot : devCallback de v ctx true s = (s, none) := rfl
        rw [hroot]
        exact ⟨rfl, Or.inl ⟨hvr, rfl⟩⟩
      · have hdec : decide (v = root) = false := decide_eq_false hvr
        rw [hdec] at h ⊢
        rcases hcb : devCallback de v ctx false s with ⟨s2, r⟩
        rw [hcb] at h
        cases r with
        | some e3 => exact Option.noConfusion h
        | none =>
            refine ⟨rfl, ?_⟩
            rcases devCallback_none_spec de v ctx s s2 hcb with
              ⟨hm, hs⟩ | ⟨hm, hnil, hs⟩ | ⟨hm, hne, hs⟩
            · right; left
              rw [hcp] at hm
              rw [hname] at hs
              exact ⟨hvr, hm, hs⟩
            · right; right; left
              rw [hcp] at hm
              exact ⟨hvr, hm, hnil, hs⟩
            · right; right; right
              rw [hcp] at hm hs
              exact ⟨hvr, hm, hne, hs⟩
    · unfold stepCore at h
      simp [hctx, happ] at h

theorem walkFold_cons_state {σ : Type} (we : WalkEnv) (cb) (root v : Vertex)
    (vs : List Vertex) (s : σ) (stop : Bool) :
    (walkFold we cb root (v :: vs) s stop).state =
      (walkFold we cb root vs (stepCore we cb root s stop v).state
        (stepCore we cb root s stop v).stop).state := rfl

theorem walkFold_cons_stop {σ : Type} (we : WalkEnv) (cb) (root v : Vertex)
    (vs : List Vertex) (s : σ) (stop : Bool) :
    (walkFold we cb root (v :: vs) s stop).stop =
      (walkFold we cb root vs (stepCore we cb root s stop v).state
        (stepCore we cb root s stop v).stop).stop := rfl

theorem walkFold_cons_trace {σ : Type} (we : WalkEnv) (cb) (root v : Vertex)
    (vs : List Vertex) (s : σ) (stop : Bool) :
    (walkFold we cb root (v :: vs) s stop).trace =
      (stepCore we cb root s stop v).inv ::
      (walkFold we cb root vs (stepCore we cb root s stop v).state
        (stepCore we cb root s stop v).stop).trace := rfl

/-- The kinds of events an error-free Dev walk over `vs`, started with
cache contents `fs0`, can log. -/
def depEventOk (de : DevEnv) (vs : List Vertex) (fs0 : List String)
    (e : DevEvent) : Prop :=
  ∃ w, w ∈ vs ∧
    (e = DevEvent.cacheHitHeader w.file.application.name
      ∨ (e = DevEvent.devDepCall w.file.id
          ∧ cachePathOf de.env.core w.file ∉ fs0)
      ∨ ((e = DevEvent.relFilesCall w.file.id
          ∨ e = DevEvent.writeDevDep (cachePathOf de.env.core w.file))
        ∧ cachePathOf de.env.core w.file ∉ fs0
        ∧ (de.devDepRes w.file.id).files ≠ []))

theorem depEventOk_mono (de : DevEnv) (v : Vertex) (vs : List Vertex)
    (fs0 fs1 : List String) (e : DevEvent) (hsub : ∀ p, p ∈ fs0 → p ∈ fs1)
    (h : depEventOk de vs fs1 e) : depEventOk de (v :: vs) fs0 e := by
  obtain ⟨w, hw, hc⟩ := h
  refine ⟨w, List.mem_cons_of_mem v hw, ?_⟩
  rcases hc with hc | ⟨hc, hm⟩ | ⟨hc, hm, hf⟩
  · exact Or.inl hc
  · exact Or.inr (Or.inl ⟨hc, fun hin => hm (hsub _ hin)⟩)
  · exact Or.inr (Or.inr ⟨hc, fun hin => hm (hsub _ hin), hf⟩)

/-- Master characterization of an error-free Dev walk over vertices with
distinct appfile ids: the flag stays clear, the cache set only grows (by
the paths of dependencies whose `DevDep` produced files), every logged
event is attributable to a visited dependency, and each dependency logs
a cache-hit header (on a cache hit) or a `DevDep` call (on a miss). -/
theorem dev_walk_master (de : DevEnv) (root : Vertex) :
    ∀ (vs : List Vertex) (s : DevState),
    (∀ r ∈ (walkFold de.env (devCallback de) root vs s false).trace,
      r.result = none) →
    ((vs.map (fun w => w.file.id)).Nodup) →
    (walkFold de.env (devCallback de) root vs s false).stop = false
    ∧ ∃ dfs devs,
        (walkFold de.env (devCallback de) root vs s false).state.fs
          = s.fs ++ dfs
        ∧ (walkFold de.env (devCallback de) root vs s false).state.events
          = s.events ++ devs
        ∧ (∀ p ∈ dfs, ∃ w, w ∈ vs ∧ p = cachePathOf de.env.core w.file
            ∧ (de.devDepRes w.file.id).files ≠ [])
        ∧ (∀ e ∈ devs, depEventOk de vs s.fs e)
        ∧ (∀ v, v ∈ vs → ¬(v = root) →
            (cachePathOf de.env.core v.file ∈ s.fs →
              DevEvent.cacheHitHeader v.file.application.name ∈ devs)
            ∧ (cachePathOf de.env.core v.file ∉ s.fs →
              DevEvent.devDepCall v.file.id ∈ devs)) := by
  intro vs
  induction vs with
  | nil =>
      intro s _ _
      refine ⟨rfl, [], [], by simp [walkFold], by simp [walkFold], ?_, ?_, ?_⟩
      · intro p hp; exact absurd hp (by simp)
      · intro e he; exact absurd he (by simp)
      · intro v hv; exact absurd hv (by simp)
  | cons v vs ih =>
      intro s htr hnd
      have h1 : (stepCore de.env (devCallback de) root s false v).inv.result
          = none := by
        apply htr
        rw [walkFold_cons_trace]
        simp
      obtain ⟨hstop0, hcases⟩ := devStep_none de root v s h1
      have htr2 : ∀ r ∈ (walkFold de.env (devCallback de) root vs
          (stepCore de.env (devCallback de) root s false v).state
          false).trace, r.result = none := by
        intro r hr
        apply htr
        rw [walkFold_cons_trace, hstop0]
        exact List.mem_cons_of_mem _ hr
      have hnd2 : ((vs.map (fun w => w.file.id)).Nodup) :=
        (List.nodup_cons.mp hnd).2
      have hvid : v.file.id ∉ vs.map (fun w => w.file.id) :=
        (List.nodup_cons.mp hnd).1
      obtain ⟨ihstop, dfs, devs, ihfs, ihev, ihdfs, ihdevs, ihpos⟩ :=
        ih (stepCore de.env (devCallback de) root s false v).state htr2 hnd2
      have hgstop : (walkFold de.env (devCallback de) root (v :: vs) s
          false).stop = false := by
        rw [walkFold_cons_stop, hstop0]
        exact ihstop
      rcases hcases with ⟨hvr, hst⟩ | ⟨hvr, hm, hst⟩ | ⟨hvr, hm, hnil, hst⟩
        | ⟨hvr, hm, hne, hst⟩
      · -- root skip: state unchanged
        refine ⟨hgstop, dfs, devs, ?_, ?_, ?_, ?_, ?_⟩
        · rw [walkFold_cons_state, hstop0, ihfs, hst]
        · rw [walkFold_cons_state, hstop0, ihev, hst]
        · intro p hp
          obtain ⟨w, hw, hcp, hf⟩ := ihdfs p hp
          exact ⟨w, List.mem_cons_of_mem v hw, hcp, hf⟩
        · intro e he
          exact depEventOk_mono de v vs s.fs _ e
            (by rw [hst]; exact fun p hp => hp) (ihdevs e he)
        · intro u hu hur
          rcases List.mem_cons.mp hu with hu | hu
          · exact absurd (hu.trans hvr) hur
          · have := ihpos u hu hur
            rw [hst] at this
            exact this
      · -- cache hit: header logged, nothing else changes
        refine ⟨hgstop, dfs,
          DevEvent.cacheHitHeader v.file.application.name :: devs,
          ?_, ?_, ?_, ?_, ?_⟩
        · rw [walkFold_cons_state, hstop0, ihfs, hst]
        · rw [walkFold_cons_state, hstop0, ihev, hst]
          simp
        · intro p hp
          obtain ⟨w, hw, hcp, hf⟩ := ihdfs p hp
          exact ⟨w, List.mem_cons_of_mem v hw, hcp, hf⟩
        · intro e he
          rcases List.mem_cons.mp he with he | he
          · exact ⟨v, by simp, Or.inl he⟩
          · exact depEventOk_mono de v vs s.fs _ e
              (by rw [hst]; exact fun p hp => hp) (ihdevs e he)
        · intro u hu hur
          rcases List.mem_cons.mp hu with hu | hu
          · subst hu
            constructor
            · intro _; simp
            · intro hno; exact absurd hm hno
          · have hu2 := ihpos u hu hur
            rw [hst] at hu2
            exact ⟨fun hin => List.mem_cons_of_mem _ (hu2.1 hin),
              fun hno => List.mem_cons_of_mem _ (hu2.2 hno)⟩
      · -- cache miss, DevDep produced no files: only the call is logged
        refine ⟨hgstop, dfs, DevEvent.devDepCall v.file.id :: devs,
          ?_, ?_, ?_, ?_, ?_⟩
        · rw [walkFold_cons_state, hstop0, ihfs, hst]
        · rw [walkFold_cons_state, hstop0, ihev, hst]
          simp
        · intro p hp
          obtain ⟨w, hw, hcp, hf⟩ := ihdfs p hp
          exact ⟨w, List.mem_cons_of_mem v hw, hcp, hf⟩
        · intro e he
          rcases List.mem_cons.mp he with he | he
          · exact ⟨v, by simp, Or.inr (Or.inl ⟨he, hm⟩)⟩
          · exact depEventOk_mono de v vs s.fs _ e
              (by rw [hst]; exact fun p hp => hp) (ihdevs e he)
        · intro u hu hur
          rcases List.mem_cons.mp hu with hu | hu
          · subst hu
            constructor
            · intro hin; exact absurd hin hm
            · intro _; simp
          · have hu2 := ihpos u hu hur
            rw [hst] at hu2
            exact ⟨fun hin => List.mem_cons_of_mem _ (hu2.1 hin),
              fun hno => List.mem_cons_of_mem _ (hu2.2 hno)⟩
      · -- cache miss with files: the dependency is cached
        have hcpne : ∀ u, u ∈ vs →
            cachePathOf de.env.core u.file ≠ cachePathOf de.env.core v.file := by
          intro u hu heq
          have hid := cachePathOf_inj heq
          exact hvid (hid ▸ List.mem_map_of_mem (fun w => w.file.id) hu)
        refine ⟨hgstop, cachePathOf de.env.core v.file :: dfs,
          DevEvent.devDepCall v.file.id :: DevEvent.relFilesCall v.file.id ::
            DevEvent.writeDevDep (cachePathOf de.env.core v.file) :: devs,
          ?_, ?_, ?_, ?_, ?_⟩
        · rw [walkFold_cons_state, hstop0, ihfs, hst]
          simp
        · rw [walkFold_cons_state, hstop0, ihev, hst]
          simp
        · intro p hp
          rcases List.mem_cons.mp hp with hp | hp
          · exact ⟨v, by simp, hp, hne⟩
          · obtain ⟨w, hw, hcp, hf⟩ := ihdfs p hp
            exact ⟨w, List.mem_cons_of_mem v hw, hcp, hf⟩
        · intro e he
          have hsub : ∀ p, p ∈ s.fs →
              p ∈ (stepCore de.env (devCallback de) root s false v).state.fs := by
            rw [hst]
            intro p hp
            exact List.mem_append_left _ hp
          rcases List.mem_cons.mp he with he | he
          · exact ⟨v, by simp, Or.inr (Or.inl ⟨he, hm⟩)⟩
          rcases List.mem_cons.mp he with he | he
          · exact ⟨v, by simp, Or.inr (Or.inr ⟨Or.inl he, hm, hne⟩)⟩
          rcases List.mem_cons.mp he with he | he
          · exact ⟨v, by simp, Or.inr (Or.inr ⟨Or.inr he, hm, hne⟩)⟩
          · exact depEventOk_mono de v vs s.fs _ e hsub (ihdevs e he)
        · intro u hu hur
          rcases List.mem_cons.mp hu with hu | hu
          · subst hu
            constructor
            · intro hin; exact absurd hin hm
            · intro _; simp
          · have hu2 := ihpos u hu hur
            rw [hst] at hu2
            constructor
            · intro hin
              have := hu2.1 (List.mem_append_left _ hin)
              simp [this]
            · intro hno
              have hno2 : cachePathOf de.env.core u.file ∉
                  s.fs ++ [cachePathOf de.env.core v.file] := by
                intro hin
                rcases List.mem_append.mp hin with hin | hin
                · exact hno hin
                · exact hcpne u hu (List.mem_singleton.mp hin)
              have := hu2.2 hno2
              simp [this]

/-- Reduction of `Core.Dev` when root resolution succeeds and the walk is
error-free: the final walk state is kept and the root app `Dev` is
invoked last. -/
theorem Dev_run (de : DevEnv) (root : Vertex) (vs : List Vertex)
    (fs0 : List String) (ctx : AppContext)
    (hctx : appContextE de.env.core de.env.mkdirErr root.file = .ok ctx)
    (happ : de.env.appErr ctx.tuple = none)
    (hsucc : ∀ r ∈ (walkFold de.env (devCallback de) root vs ⟨fs0, []⟩
      false).trace, r.result = none) :
    Dev de (.ok root) vs fs0 =
      (⟨(walkFold de.env (devCallback de) root vs ⟨fs0, []⟩ false).state.fs,
        (walkFold de.env (devCallback de) root vs ⟨fs0, []⟩ false).state.events
          ++ [DevEvent.rootDevCall]⟩, de.rootDevErr) := by
  have hwerr : walkErr (walkFold de.env (devCallback de) root vs ⟨fs0, []⟩
      false).trace = none := by
    unfold walkErr
    rw [filterMap_of_none _ _ hsucc]
    rfl
  unfold Dev walk
  simp only [hctx, happ, hwerr]

/-- Claim C5: in an error-free Dev walk over vertices with distinct ids,
every dependency whose cache directory already holds a readable
`dev-dep.json` has its `DevDep` operation skipped and a cache-hit header
announced instead, and the root app `Dev` is invoked exactly once,
after the walk. -/
theorem dev_cache_hit (de : DevEnv) (root : Vertex) (vs : List Vertex)
    (fs0 : List String)
    (hnd : (vs.map (fun w => w.file.id)).Nodup)
    (hrok : stepOkB de.env root = true)
    (hsucc : ∀ r ∈ (walkFold de.env (devCallback de) root vs ⟨fs0, []⟩
      false).trace, r.result = none) :
    (∃ pre, (Dev de (.ok root) vs fs0).1.events
        = pre ++ [DevEvent.rootDevCall]
      ∧ DevEvent.rootDevCall ∉ pre)
    ∧ ∀ v, v ∈ vs → ¬(v = root) → cachePathOf de.env.core v.file ∈ fs0 →
        DevEvent.devDepCall v.file.id ∉ (Dev de (.ok root) vs fs0).1.events
        ∧ DevEvent.cacheHitHeader v.file.application.name
          ∈ (Dev de (.ok root) vs fs0).1.events := by
  obtain ⟨ctx, hctx, happ⟩ := stepOkB_spec hrok
  have hdev := Dev_run de root vs fs0 ctx hctx happ hsucc
  obtain ⟨hstop, dfs, devs, hfs, hev, hdfs, hdevs, hpos⟩ :=
    dev_walk_master de root vs ⟨fs0, []⟩ hsucc hnd
  have hinj := List.inj_on_of_nodup_map hnd
  have hevents : (Dev de (.ok root) vs fs0).1.events
      = devs ++ [DevEvent.rootDevCall] := by
    rw [hdev]
    simp only
    rw [hev]
    simp
  constructor
  · refine ⟨devs, hevents, ?_⟩
    intro hmem
    obtain ⟨w, _, hc⟩ := hdevs _ hmem
    rcases hc with hc | ⟨hc, _⟩ | ⟨hc | hc, _, _⟩ <;>
      exact DevEvent.noConfusion hc
  · intro v hv hvr hcp
    constructor
    · intro hmem
      rw [hevents] at hmem
      rcases List.mem_append.mp hmem with hmem | hmem
      · obtain ⟨w, hw, hc⟩ := hdevs _ hmem
        rcases hc with hc | ⟨hc, hno⟩ | ⟨hc | hc, _, _⟩
        · exact DevEvent.noConfusion hc
        · injection hc with hid
          have hwv : w = v := hinj hw hv hid.symm
          rw [hwv] at hno
          exact hno hcp
        · exact DevEvent.noConfusion hc
        · exact DevEvent.noConfusion hc
      · rw [List.mem_singleton] at hmem
        exact DevEvent.noConfusion hmem
    · rw [hevents]
      exact List.mem_append_left _ ((hpos v hv hvr).1 hcp)

/-- Claim C9: in an error-free Dev walk, a dependency whose `DevDep` call
succeeds with an empty `Files` list triggers neither `RelFiles` nor
`WriteDevDep`, its `dev-dep.json` is never written (the cache set does
not gain its path), and a subsequent error-free Dev run invokes its
`DevDep` again. -/
theorem dev_empty_files_not_cached (de : DevEnv) (root : Vertex)
    (vs : List Vertex) (fs0 : List String) (v : Vertex)
    (hnd : (vs.map (fun w => w.file.id)).Nodup)
    (hrok : stepOkB de.env root = true)
    (hv : v ∈ vs) (hvr : ¬(v = root))
    (hmiss : cachePathOf de.env.core v.file ∉ fs0)
    (hfiles : (de.devDepRes v.file.id).files = [])
    (hsucc : ∀ r ∈ (walkFold de.env (devCallback de) root vs ⟨fs0, []⟩
      false).trace, r.result = none)
    (hsucc2 : ∀ r ∈ (walkFold de.env (devCallback de) root vs
      ⟨(Dev de (.ok root) vs fs0).1.fs, []⟩ false).trace, r.result = none) :
    DevEvent.devDepCall v.file.id ∈ (Dev de (.ok root) vs fs0).1.events
    ∧ DevEvent.relFilesCall v.file.id ∉ (Dev de (.ok root) vs fs0).1.events
    ∧ DevEvent.writeDevDep (cachePathOf de.env.core v.file)
        ∉ (Dev de (.ok root) vs fs0).1.events
    ∧ cachePathOf de.env.core v.file ∉ (Dev de (.ok root) vs fs0).1.fs
    ∧ DevEvent.devDepCall v.file.id
        ∈ (Dev de (.ok root) vs ((Dev de (.ok root) vs fs0).1.fs)).1.events := by
  obtain ⟨ctx, hctx, happ⟩ := stepOkB_spec hrok
  have hdev := Dev_run de root vs fs0 ctx hctx happ hsucc
  obtain ⟨hstop, dfs, devs, hfs, hev, hdfs, hdevs, hpos⟩ :=
    dev_walk_master de root vs ⟨fs0, []⟩ hsucc hnd
  have hinj := List.inj_on_of_nodup_map hnd
  have hevents : (Dev de (.ok root) vs fs0).1.events
      = devs ++ [DevEvent.rootDevCall] := by
    rw [hdev]
    simp only
    rw [hev]
    simp
  have hfs1 : (Dev de (.ok root) vs fs0).1.fs = fs0 ++ dfs := by
    rw [hdev]
    exact hfs
  have hnotin : cachePathOf de.env.core v.file
      ∉ (Dev de (.ok root) vs fs0).1.fs := by
    rw [hfs1]
    intro hin
    rcases List.mem_append.mp hin with hin | hin
    · exact hmiss hin
    · obtain ⟨w, hw, hcp, hf⟩ := hdfs _ hin
      have hvw : v = w := hinj hv hw (cachePathOf_inj hcp)
      rw [← hvw] at hf
      exact hf hfiles
  refine ⟨?_, ?_, ?_, hnotin, ?_⟩
  · rw [hevents]
    exact List.mem_append_left _ ((hpos v hv hvr).2 hmiss)
  · intro hmem
    rw [hevents] at hmem
    rcases List.mem_append.mp hmem with hmem | hmem
    · obtain ⟨w, hw, hc⟩ := hdevs _ hmem
      rcases hc with hc | ⟨hc, _⟩ | ⟨hc | hc, _, hf⟩
      · exact DevEvent.noConfusion hc
      · exact DevEvent.noConfusion hc
      · injection hc with hid
        have hwv : w = v := hinj hw hv hid.symm
        rw [hwv] at hf
        exact hf hfiles
      · exact DevEvent.noConfusion hc
    · rw [List.mem_singleton] at hmem
      exact DevEvent.noConfusion hmem
  · intro hmem
    rw [hevents] at hmem
    rcases List.mem_append.mp hmem with hmem | hmem
    · obtain ⟨w, hw, hc⟩ := hdevs _ hmem
      rcases hc with hc | ⟨hc, _⟩ | ⟨hc | hc, _, hf⟩
      · exact DevEvent.noConfusion hc
      · exact DevEvent.noConfusion hc
      · exact DevEvent.noConfusion hc
      · injection hc with hp
        have hvw : v = w := hinj hv hw (cachePathOf_inj hp)
        rw [← hvw] at hf
        exact hf hfiles
    · rw [List.mem_singleton] at hmem
      exact DevEvent.noConfusion hmem
  · have hdev2 := Dev_run de root vs ((Dev de (.ok root) vs fs0).1.fs) ctx
      hctx happ hsucc2
    obtain ⟨hstop2, dfs2, devs2, hfs2, hev2, hdfs2, hdevs2, hpos2⟩ :=
      dev_walk_master de root vs ⟨(Dev de (.ok root) vs fs0).1.fs, []⟩
        hsucc2 hnd
    have hevents2 : (Dev de (.ok root) vs
        ((Dev de (.ok root) vs fs0).1.fs)).1.events
        = devs2 ++ [DevEvent.rootDevCall] := by
      rw [hdev2]
      simp only
      rw [hev2]
      simp
    rw [hevents2]
    exact List.mem_append_left _ ((hpos2 v hv hvr).2 hnotin)

def c5DevEnv : DevEnv :=
  { env := wfWalkEnv
  , devDepErr := fun _ => none
  , devDepRes := fun _ => ⟨["main.sh"]⟩
  , relFilesErr := fun _ => none
  , writeErr := fun _ => none
  , rootDevErr := none }

theorem dev_cache_hit_witness :
    (∃ pre, (Dev c5DevEnv (.ok wfVertexR) [wfVertexD1, wfVertexR]
        [cachePathOf sampleCore sampleDepFileA]).1.events
        = pre ++ [DevEvent.rootDevCall]
      ∧ DevEvent.rootDevCall ∉ pre)
    ∧ ∀ v, v ∈ [wfVertexD1, wfVertexR] → ¬(v = wfVertexR) →
        cachePathOf c5DevEnv.env.core v.file
          ∈ [cachePathOf sampleCore sampleDepFileA] →
        DevEvent.devDepCall v.file.id ∉ (Dev c5DevEnv (.ok wfVertexR)
          [wfVertexD1, wfVertexR]
          [cachePathOf sampleCore sampleDepFileA]).1.events
        ∧ DevEvent.cacheHitHeader v.file.application.name
          ∈ (Dev c5DevEnv (.ok wfVertexR) [wfVertexD1, wfVertexR]
            [cachePathOf sampleCore sampleDepFileA]).1.events :=
  dev_cache_hit c5DevEnv wfVertexR [wfVertexD1, wfVertexR]
    [cachePathOf sampleCore sampleDepFileA]
    (by decide) (by decide) (by decide)

def c9DevEnv : DevEnv :=
  { env := wfWalkEnv
  , devDepErr := fun _ => none
  , devDepRes := fun _ => ⟨[]⟩
  , relFilesErr := fun _ => none
  , writeErr := fun _ => none
  , rootDevErr := none }

theorem dev_empty_files_not_cached_witness :
    DevEvent.devDepCall wfVertexD1.file.id
      ∈ (Dev c9DevEnv (.ok wfVertexR) [wfVertexD1, wfVertexR] []).1.events
    ∧ DevEvent.relFilesCall wfVertexD1.file.id
      ∉ (Dev c9DevEnv (.ok wfVertexR) [wfVertexD1, wfVertexR] []).1.events
    ∧ DevEvent.writeDevDep (cachePathOf c9DevEnv.env.core wfVertexD1.file)
      ∉ (Dev c9DevEnv (.ok wfVertexR) [wfVertexD1, wfVertexR] []).1.events
    ∧ cachePathOf c9DevEnv.env.core wfVertexD1.file
      ∉ (Dev c9DevEnv (.ok wfVertexR) [wfVertexD1, wfVertexR] []).1.fs
    ∧ DevEvent.devDepCall wfVertexD1.file.id
      ∈ (Dev c9DevEnv (.ok wfVertexR) [wfVertexD1, wfVertexR]
          ((Dev c9DevEnv (.ok wfVertexR) [wfVertexD1, wfVertexR]
            []).1.fs)).1.events :=
  dev_empty_files_not_cached c9DevEnv wfVertexR [wfVertexD1, wfVertexR] []
    wfVertexD1 (by decide) (by decide) (by decide) (by decide) (by decide)
    (by decide) (by decide) (by decide)

/-! ## Credentials (Core.creds, core.go lines 200-302) -/

/-- Observable actions of a credentials run. -/
inductive CredsEvent where
  | header (text : String)
  | message (tag : String)
  | inputPrompt (id query : String)
  | infraCredsCall
  | mkdirCall (path : String)
  | cryptWriteCall (path : String)
deriving DecidableEq, Repr

/-- The final result of `Core.creds`: success carries the value left in
`infraCtx.InfraCreds` (`none` when the routine never assigned it);
`diverge` models the password loop consuming every available input
without obtaining a non-empty password. -/
inductive CredsOutcome where
  | ok (assigned : Option (List (String × String)))
  | err (msg : String)
  | diverge
deriving DecidableEq, Repr

/-- Oracles for the collaborator calls `Core.creds` performs.
`passwordInput` is the decryption-password prompt, `decrypt` combines
`cryptRead` and `json.Unmarshal` keyed by the password entered,
`infraCredsRes` is `infra.Creds`, `newPasswordInputs` the successive
answers to the encryption-password prompt, `cryptWriteErr` the
`cryptWrite` result. -/
structure CredsEnv where
  credsFileExists : Bool
  mkdirErr : Option String
  passwordInput : Except String String
  decrypt : String → Except String (List (String × String))
  infraCredsRes : Except String (List (String × String))
  newPasswordInputs : List (Except String String)
  cryptWriteErr : Option String

/-- The `for password == ""` prompt loop (core.go lines 275-284). -/
def promptLoop : List (Except String String) → List CredsEvent →
    List CredsEvent × Option (Except String String)
  | [], evs => (evs, none)
  | i :: rest, evs =>
      let evs2 := evs ++ [CredsEvent.inputPrompt "creds_password"
        "Password for Encrypting Credentials"]
      match i with
      | .error e => (evs2, some (.error e))
      | .ok p => if p = "" then promptLoop rest evs2 else (evs2, some (.ok p))

/-- The re-acquisition path of `Core.creds` (the `if creds == nil` block,
core.go lines 257-297), followed by the final assignment to
`infraCtx.InfraCreds` (line 300). -/
def credsReacquire (c : Core) (env : CredsEnv) (evs : List CredsEvent) :
    List CredsEvent × CredsOutcome :=
  let evs2 := evs ++ [CredsEvent.message "credentials not found",
    CredsEvent.infraCredsCall]
  match env.infraCredsRes with
  | .error e => (evs2, .err e)
  | .ok m =>
      match promptLoop env.newPasswordInputs evs2 with
      | (evs3, none) => (evs3, .diverge)
      | (evs3, some (.error e)) => (evs3, .err e)
      | (evs3, some (.ok _)) =>
          let evs4 := evs3
            ++ [CredsEvent.cryptWriteCall (join c.localDir "creds")]
          match env.cryptWriteErr with
          | some e =>
              (evs4, .err ("error writing encrypted credentials: " ++ e))
          | none => (evs4, .ok (some m))

/-- `Core.creds`.  On the cached-file branch with a non-empty password
and successful decryption the source returns nil immediately (line 251),
before the `infraCtx.InfraCreds = creds` assignment at line 300 — so the
success value on that path is `ok none`. -/
def creds (c : Core) (env : CredsEnv) : List CredsEvent × CredsOutcome :=
  let evs := [CredsEvent.header "Detecting infrastructure credentials"]
  if env.credsFileExists then
    let evs2 := evs ++ [CredsEvent.message "cached credentials found",
      CredsEvent.inputPrompt "creds_password"
        "Encrypted Credentials Password"]
    match env.passwordInput with
    | .error e => (evs2, .err e)
    | .ok value =>
        if value ≠ "" then
          match env.decrypt value with
          | .ok _ => (evs2, .ok none)
          | .error e =>
              (evs2, .err ("error reading encrypted credentials: " ++ e))
        else credsReacquire c env evs2
  else
    let evs2 := evs ++ [CredsEvent.mkdirCall c.localDir]
    match env.mkdirErr with
    | some e => (evs2, .err e)
    | none => credsReacquire c env evs2

def c2CredsEnv : CredsEnv :=
  { credsFileExists := true
  , mkdirErr := none
  , passwordInput := .ok "hunter2"
  , decrypt := fun p =>
      if p = "hunter2" then .ok [("AWS_ACCESS_KEY", "abc")]
      else .error "bad password"
  , infraCredsRes := .error "unused"
  , newPasswordInputs := []
  , cryptWriteErr := none }

/-- Claim C2 (code bug): with the encrypted file cached, a non-empty
password and successful decryption of the map, `Core.creds` returns
success with `infraCtx.InfraCreds` never assigned — the early
`return nil` at line 251 precedes the assignment at line 300 and drops
the decrypted map.  The claim (and spec step 5) says the map is assigned
before returning. -/
theorem creds_drops_decrypted_map :
    creds sampleCore c2CredsEnv =
      ([CredsEvent.header "Detecting infrastructure credentials",
        CredsEvent.message "cached credentials found",
        CredsEvent.inputPrompt "creds_password"
          "Encrypted Credentials Password"],
       CredsOutcome.ok none) := rfl

theorem promptLoop_finds (p : String) (hp : ¬(p = "")) :
    ∀ (eps : List (Except String String)), (∀ i ∈ eps, i = .ok "") →
    ∀ (rest : List (Except String String)) (evs : List CredsEvent),
    promptLoop (eps ++ .ok p :: rest) evs =
      (evs ++ List.replicate (eps.length + 1)
        (CredsEvent.inputPrompt "creds_password"
          "Password for Encrypting Credentials"), some (.ok p)) := by
  intro eps
  induction eps with
  | nil =>
      intro _ rest evs
      unfold promptLoop
      simp [hp]
  | cons i eps ih =>
      intro hall rest evs
      have hi : i = .ok "" := hall i (by simp)
      subst hi
      show promptLoop (.ok "" :: (eps ++ .ok p :: rest)) evs = _
      simp only [promptLoop]
      rw [if_pos trivial]
      rw [ih (fun j hj => hall j (by simp [hj])) rest _]
      simp [List.replicate_succ, List.append_assoc]

/-- Claim C6: with the encrypted file cached and the user answering the
decryption prompt with the empty password, `Core.creds` takes the
re-acquisition path: it calls `infra.Creds`, prompts repeatedly (once
per empty answer, and once more for the first non-empty answer) for an
encryption password, writes the re-encrypted map to `<localDir>/creds`,
and assigns the acquired map to `infraCtx.InfraCreds`. -/
theorem creds_empty_password_reacquires (c : Core) (env : CredsEnv)
    (m : List (String × String)) (eps rest : List (Except String String))
    (p : String)
    (hex : env.credsFileExists = true)
    (hpw : env.passwordInput = .ok "")
    (hic : env.infraCredsRes = .ok m)
    (hinputs : env.newPasswordInputs = eps ++ .ok p :: rest)
    (heps : ∀ i ∈ eps, i = .ok "")
    (hp : ¬(p = ""))
    (hw : env.cryptWriteErr = none) :
    creds c env =
      ([CredsEvent.header "Detecting infrastructure credentials",
        CredsEvent.message "cached credentials found",
        CredsEvent.inputPrompt "creds_password"
          "Encrypted Credentials Password",
        CredsEvent.message "credentials not found",
        CredsEvent.infraCredsCall]
        ++ List.replicate (eps.length + 1)
            (CredsEvent.inputPrompt "creds_password"
              "Password for Encrypting Credentials")
        ++ [CredsEvent.cryptWriteCall (join c.localDir "creds")],
       CredsOutcome.ok (some m)) := by
  unfold creds credsReacquire
  rw [hex, hpw]
  simp only [if_true]
  rw [if_neg (by simp)]
  rw [hic, hinputs]
  rw [promptLoop_finds p hp eps heps rest _]
  rw [hw]
  simp

def c6CredsEnv : CredsEnv :=
  { credsFileExists := true
  , mkdirErr := none
  , passwordInput := .ok ""
  , decrypt := fun _ => .error "unused"
  , infraCredsRes := .ok [("AWS_ACCESS_KEY", "xyz")]
  , newPasswordInputs := [.ok "", .ok "newpass"]
  , cryptWriteErr := none }

theorem creds_empty_password_reacquires_witness :
    creds sampleCore c6CredsEnv =
      ([CredsEvent.header "Detecting infrastructure credentials",
        CredsEvent.message "cached credentials found",
        CredsEvent.inputPrompt "creds_password"
          "Encrypted Credentials Password",
        CredsEvent.message "credentials not found",
        CredsEvent.infraCredsCall]
        ++ List.replicate (([Except.ok ""] :
              List (Except String String)).length + 1)
            (CredsEvent.inputPrompt "creds_password"
              "Password for Encrypting Credentials")
        ++ [CredsEvent.cryptWriteCall (join sampleCore.localDir "creds")],
       CredsOutcome.ok (some [("AWS_ACCESS_KEY", "xyz")])) :=
  creds_empty_password_reacquires sampleCore c6CredsEnv
    [("AWS_ACCESS_KEY", "xyz")] [Except.ok ""] [] "newpass"
    rfl rfl rfl rfl
    (by intro i hi; rw [List.mem_singleton] at hi; exact hi)
    (by decide) rfl

/-! ## Execute (Core.Execute, core.go lines 419-467) -/

/-- The task enumeration plus the "any other value" case. -/
inductive Task where
  | dev
  | infra
  | other (s : String)
deriving DecidableEq, Repr

def Task.name : Task → String
  | .dev => "dev"
  | .infra => "infra"
  | .other s => s

structure ExecuteOpts where
  task : Task
  action : String
  args : List String

/-- Oracles for the collaborator calls `Core.Execute` performs. -/
structure ExecEnv where
  core : Core
  mkdirErr : String → Option String
  appErr : Tuple → Option String
  appDevErr : Option String
  infraResolve : Option String
  infraExecuteErr : Option String

/-- A plugin invocation made during Execute. -/
inductive PluginCall where
  | appDev
  | infraExecute
deriving DecidableEq, Repr

inductive ExecOutcome where
  | ok
  | err (msg : String)
  | panicked (msg : String)
deriving DecidableEq, Repr

/-- `Core.executeApp` (core.go lines 430-452), including its inner task
switch whose default case panics (the source message has the typo
"uknown"). -/
def executeApp (ee : ExecEnv) (opts : ExecuteOpts) :
    List PluginCall × ExecOutcome :=
  match appContextE ee.core ee.mkdirErr ee.core.appfile with
  | .error e => ([], .err e)
  | .ok ctx =>
      match ee.appErr ctx.tuple with
      | some e => ([], .err e)
      | none =>
          match opts.task with
          | .dev =>
              match ee.appDevErr with
              | some e => ([PluginCall.appDev], .err e)
              | none => ([PluginCall.appDev], .ok)
          | t => ([], .panicked ("uknown task: " ++ t.name))

/-- `Core.executeInfra` (core.go lines 454-467). -/
def executeInfra (ee : ExecEnv) (_opts : ExecuteOpts) :
    List PluginCall × ExecOutcome :=
  match ee.infraResolve with
  | some e => ([], .err e)
  | none =>
      match ee.infraExecuteErr with
      | some e => ([PluginCall.infraExecute], .err e)
      | none => ([PluginCall.infraExecute], .ok)

/-- `Core.Execute` (core.go lines 419-428). -/
def Execute (ee : ExecEnv) (opts : ExecuteOpts) :
    List PluginCall × ExecOutcome :=
  match opts.task with
  | .dev => executeApp ee opts
  | .infra => executeInfra ee opts
  | .other s => ([], .err ("unknown task: " ++ s))

/-- Claim C10: through `Core.Execute` the panic branch of `executeApp` is
unreachable: Execute dispatches `executeApp` only for the dev task (so
the inner switch always takes its dev case), dispatches `executeInfra`
only for the infra task, and returns an unknown-task error for every
other task value without invoking any plugin. -/
theorem execute_no_panic (ee : ExecEnv) (opts : ExecuteOpts) :
    (∀ m, ¬((Execute ee opts).2 = ExecOutcome.panicked m))
    ∧ (opts.task = Task.dev → Execute ee opts = executeApp ee opts)
    ∧ (opts.task = Task.infra → Execute ee opts = executeInfra ee opts)
    ∧ (∀ s, opts.task = Task.other s →
        Execute ee opts = ([], ExecOutcome.err ("unknown task: " ++ s))) := by
  cases ht : opts.task with
  | dev =>
      have hred : Execute ee opts = executeApp ee opts := by
        unfold Execute
        rw [ht]
      refine ⟨?_, fun _ => hred, ?_, ?_⟩
      · intro m
        rw [hred]
        unfold executeApp
        rcases hc : appContextE ee.core ee.mkdirErr ee.core.appfile
          with e | ctx
        · simp [hc]
        · rcases ha : ee.appErr ctx.tuple with _ | e2
          · rcases hd : ee.appDevErr with _ | e3 <;> simp [hc, ha, hd, ht]
          · simp [hc, ha]
      · intro h
        exact Task.noConfusion h
      · intro s h
        exact Task.noConfusion h
  | infra =>
      have hred : Execute ee opts = executeInfra ee opts := by
        unfold Execute
        rw [ht]
      refine ⟨?_, ?_, fun _ => hred, ?_⟩
      · intro m
        rw [hred]
        unfold executeInfra
        rcases hi : ee.infraResolve with _ | e
        · rcases hx : ee.infraExecuteErr with _ | e2 <;> simp [hi, hx]
        · simp [hi]
      · intro h
        exact Task.noConfusion h
      · intro s h
        exact Task.noConfusion h
  | other s0 =>
      have hred : Execute ee opts =
          ([], ExecOutcome.err ("unknown task: " ++ s0)) := by
        unfold Execute
        rw [ht]
      refine ⟨?_, ?_, ?_, ?_⟩
      · intro m
        rw [hred]
        simp
      · intro h
        exact Task.noConfusion h
      · intro h
        exact Task.noConfusion h
      · intro s h
        injection h with hs
        rw [hred, hs]

def c10Env : ExecEnv :=
  { core := sampleCore
  , mkdirErr := fun _ => none
  , appErr := fun _ => none
  , appDevErr := none
  , infraResolve := none
  , infraExecuteErr := none }

def c10Opts : ExecuteOpts :=
  { task := Task.other "migrate", action := "", args := [] }

theorem execute_no_panic_witness :
    ¬((Execute c10Env c10Opts).2 = ExecOutcome.panicked "x")
    ∧ Execute c10Env c10Opts =
        ([], ExecOutcome.err ("unknown task: " ++ "migrate")) :=
  ⟨(execute_no_panic c10Env c10Opts).1 "x",
   (execute_no_panic c10Env c10Opts).2.2.2 "migrate" rfl⟩

end Otto
